import Mathlib

/-!
Verification of the codebase-scanning engine of an MCP developer-assistant
server.  The TypeScript sources are shallowly embedded: file contents are
`String`s, directory trees are a mutual inductive of entries and entry
lists, the filesystem stat oracle of the path guard is a function
`String → Option Bool`, and each JavaScript regular expression is
translated into an explicit executable matcher over `List Char`.
JavaScript strings are modelled as Lean strings; the character classes
`\w`, `\s` and `.` are modelled over their ASCII portions, which covers
the identifiers and markup the tool scans.
-/

namespace McpScan

/-! ## String helpers (models of the JavaScript string primitives used) -/

/-- Model of the JavaScript whitespace class `\s`, restricted to ASCII. -/
def jsSpace (c : Char) : Bool :=
  c = ' ' || c = '\t' || c = '\n' || c = '\r' || c = '\x0b' || c = '\x0c'

/-- Model of the JavaScript word class `\w` = `[A-Za-z0-9_]`. -/
def isWordChar (c : Char) : Bool :=
  c.isAlpha || c.isDigit || c = '_'

/-- The left brace character. -/
def lbraceChar : Char := Char.ofNat 123

/-- The right brace character. -/
def rbraceChar : Char := Char.ofNat 125

/-- The backquote character. -/
def backquoteChar : Char := Char.ofNat 96

/-- The single-quote character. -/
def squoteChar : Char := Char.ofNat 39

/-- Membership in the three-quote class of the selector regex. -/
def isQuote3 (c : Char) : Bool :=
  c = squoteChar || c = '"' || c = backquoteChar

/-- Membership in the two-quote class of the import regexes. -/
def isQuote2 (c : Char) : Bool :=
  c = squoteChar || c = '"'

/-- Model of `String.prototype.toLowerCase`, ASCII portion. -/
def strLower (s : String) : String := ⟨s.data.map Char.toLower⟩

/-- Model of `String.prototype.trim`. -/
def jsTrim (s : String) : String :=
  ⟨((s.data.dropWhile jsSpace).reverse.dropWhile jsSpace).reverse⟩

/-- Model of `String.prototype.startsWith`. -/
def strStartsWith (s pre : String) : Bool := pre.data.isPrefixOf s.data

/-- Model of `String.prototype.endsWith`. -/
def strEndsWith (s suf : String) : Bool := suf.data.isSuffixOf s.data

/-- Character-list core of `String.prototype.includes`. -/
def charsContain (pat : List Char) : List Char → Bool
  | [] => pat.isEmpty
  | c :: t => pat.isPrefixOf (c :: t) || charsContain pat t

/-- Model of `String.prototype.includes`. -/
def strContains (s pat : String) : Bool := charsContain pat.data s.data

/-- Splitting a character list on a separator, in the manner of
`String.prototype.split` with a single-character separator. -/
def splitCharsOn (sep : Char) : List Char → List (List Char)
  | [] => [[]]
  | c :: rest =>
    let r := splitCharsOn sep rest
    if c = sep then [] :: r
    else
      match r with
      | h :: t => (c :: h) :: t
      | [] => [[c]]

/-- Model of splitting content on the newline character. -/
def splitLines (s : String) : List String :=
  (splitCharsOn '\n' s.data).map (fun l => ⟨l⟩)

/-- Model of `String.prototype.replace` with a plain-string pattern:
only the first occurrence is replaced. -/
def replaceFirstChars (pat rep : List Char) : List Char → List Char
  | [] => if pat.isEmpty then rep else []
  | c :: rest =>
    if pat.isPrefixOf (c :: rest) then rep ++ (c :: rest).drop pat.length
    else c :: replaceFirstChars pat rep rest

/-- Model of `s.replace(pat, rep)` for plain-string patterns. -/
def replaceFirst (s pat rep : String) : String :=
  ⟨replaceFirstChars pat.data rep.data s.data⟩

/-! ## Path model (Node `path` module, posix flavour)

Absolute paths are lists of segments; their string representation joins
the segments with slashes after a leading slash, exactly the form
`path.resolve` produces. -/

/-- String representation of an absolute path given by its segments. -/
def pathStr (segs : List String) : String :=
  "/" ++ String.intercalate "/" segs

/-- Normalization step of `path.resolve`: empty and `.` segments vanish,
`..` pops the previous segment (and is dropped at the root of an
absolute path). -/
def normalizeSegs (segs : List String) : List String :=
  segs.foldl
    (fun acc s =>
      if s = "" || s = "." then acc
      else if s = ".." then acc.dropLast
      else acc ++ [s])
    []

/-- Splitting a raw path string on slashes. -/
def splitPath (p : String) : List String :=
  (splitCharsOn '/' p.data).map (fun l => ⟨l⟩)

/-- Model of `path.resolve(root, p)` for an already-normalized absolute
`root`: an absolute `p` overrides the root, otherwise `p` is appended
and the result normalized. -/
def resolvePath (root : List String) (p : String) : List String :=
  if strStartsWith p "/" then normalizeSegs (splitPath p)
  else normalizeSegs (root ++ splitPath p)

/-- Core of `path.extname` applied to a basename: the substring from the
last dot, except that a basename without a dot, with the dot first, or
equal to `..` has no extension. -/
def extnameChars (l : List Char) : List Char :=
  if l = ['.', '.'] then []
  else
    let r := l.reverse
    if r.contains '.' = false then []
    else
      let afterRev := r.takeWhile (fun c => c ≠ '.')
      let beforeRev := (r.dropWhile (fun c => c ≠ '.')).drop 1
      if beforeRev = [] then [] else '.' :: afterRev.reverse

/-- Model of `path.extname`: the extension of the final path segment.
Resolved paths and directory-entry names never end in a separator, so
the trailing-separator handling of Node is not needed. -/
def extname (s : String) : String :=
  ⟨extnameChars ((s.data.reverse.takeWhile (fun c => c ≠ '/')).reverse)⟩

/-! ## Path Guard (`validateFilePath` in `src/utils/file-operations.ts`) -/

/-- The allowed-extension list `ALLOWED_EXTENSIONS`. -/
def ALLOWED_EXTENSIONS : List String :=
  [".ts", ".html", ".scss", ".css", ".json", ".md", ".js"]

/-- Failure kinds of the path guard, in the order its checks occur. -/
inductive PathErrorKind where
  | OutOfScope
  | DisallowedType
  | NotAccessible
deriving DecidableEq, Repr

/-- Resolved absolute path string of a caller-supplied relative path,
as computed by the first line of `validateFilePath`. -/
def resolvedStr (root : List String) (filePath : String) : String :=
  pathStr (resolvePath root filePath)

/-- Model of `validateFilePath`.  `statOf` is the filesystem oracle:
`none` when `access`/`stat` fail, `some b` when the path is accessible
with `isFile()` equal to `b`.  A non-file path throws inside the `try`
block and is rethrown as the not-accessible error, so both non-success
stat outcomes map to `NotAccessible`.  The project root is the constant
`ANGULAR_PROJECT_PATH`, already absolute and normalized, so re-resolving
it is the identity and the containment check compares against
`pathStr root` directly. -/
def validateFilePath (statOf : String → Option Bool) (root : List String)
    (filePath : String) : Except PathErrorKind String :=
  let fullPath := resolvedStr root filePath
  if strStartsWith fullPath (pathStr root) = false then
    .error .OutOfScope
  else if ALLOWED_EXTENSIONS.contains (extname fullPath) = false then
    .error .DisallowedType
  else
    match statOf fullPath with
    | some true => .ok fullPath
    | some false => .error .NotAccessible
    | none => .error .NotAccessible

/-! ## Claims C1 and C9: the Path Guard -/

/-- C1: for every relative path, `validateFilePath` succeeds (returning
the resolved absolute path) if and only if the resolved path passes the
root-prefix containment check, its extension is allowed, and the target
is an accessible regular file; and when exactly one of the three
conditions fails, the error kind is the one corresponding to that
condition (`OutOfScope`, `DisallowedType`, `NotAccessible`). -/
theorem validateFilePath_characterization (statOf : String → Option Bool)
    (root : List String) (filePath : String) :
    (validateFilePath statOf root filePath = .ok (resolvedStr root filePath) ↔
      strStartsWith (resolvedStr root filePath) (pathStr root) = true ∧
      extname (resolvedStr root filePath) ∈ ALLOWED_EXTENSIONS ∧
      statOf (resolvedStr root filePath) = some true) ∧
    (strStartsWith (resolvedStr root filePath) (pathStr root) = false ∧
      extname (resolvedStr root filePath) ∈ ALLOWED_EXTENSIONS ∧
      statOf (resolvedStr root filePath) = some true →
      validateFilePath statOf root filePath = .error .OutOfScope) ∧
    (strStartsWith (resolvedStr root filePath) (pathStr root) = true ∧
      extname (resolvedStr root filePath) ∉ ALLOWED_EXTENSIONS ∧
      statOf (resolvedStr root filePath) = some true →
      validateFilePath statOf root filePath = .error .DisallowedType) ∧
    (strStartsWith (resolvedStr root filePath) (pathStr root) = true ∧
      extname (resolvedStr root filePath) ∈ ALLOWED_EXTENSIONS ∧
      statOf (resolvedStr root filePath) ≠ some true →
      validateFilePath statOf root filePath = .error .NotAccessible) := by
  cases h1 : strStartsWith (resolvedStr root filePath) (pathStr root) with
  | false =>
    have hv : validateFilePath statOf root filePath = .error .OutOfScope := by
      simp [validateFilePath, h1]
    rw [hv]; simp [h1]
  | true =>
    by_cases h2 : extname (resolvedStr root filePath) ∈ ALLOWED_EXTENSIONS
    case neg =>
      have hv : validateFilePath statOf root filePath = .error .DisallowedType := by
        simp [validateFilePath, h1, h2]
      rw [hv]; simp [h1, h2]
    case pos =>
      cases h3 : statOf (resolvedStr root filePath) with
      | none =>
        have hv : validateFilePath statOf root filePath = .error .NotAccessible := by
          simp [validateFilePath, h1, h2, h3]
        rw [hv]; simp [h1, h2, h3]
      | some b =>
        cases b with
        | false =>
          have hv : validateFilePath statOf root filePath = .error .NotAccessible := by
            simp [validateFilePath, h1, h2, h3]
          rw [hv]; simp [h1, h2, h3]
        | true =>
          have hv : validateFilePath statOf root filePath =
              .ok (resolvedStr root filePath) := by
            simp [validateFilePath, h1, h2, h3]
          rw [hv]; simp [h1, h2, h3]

/-- Concrete filesystem oracle for the path-guard witnesses: the project
root `/proj` holds a readable `notes.md`, a readable `notes.exe`, and a
file `/okfile.md` sits outside the root. -/
def exStat1 : String → Option Bool := fun p =>
  if p = "/proj/notes.md" then some true
  else if p = "/proj/notes.exe" then some true
  else if p = "/okfile.md" then some true
  else none

/-- Witness for C1: all four cases of the characterization at concrete
inputs under the root `/proj`. -/
theorem validateFilePath_characterization_witness :
    validateFilePath exStat1 ["proj"] "notes.md" =
      .ok (resolvedStr ["proj"] "notes.md") ∧
    validateFilePath exStat1 ["proj"] "../okfile.md" = .error .OutOfScope ∧
    validateFilePath exStat1 ["proj"] "notes.exe" = .error .DisallowedType ∧
    validateFilePath exStat1 ["proj"] "ghost.md" = .error .NotAccessible :=
  ⟨(validateFilePath_characterization exStat1 ["proj"] "notes.md").1.mpr
      ⟨by decide, by decide, by decide⟩,
   (validateFilePath_characterization exStat1 ["proj"] "../okfile.md").2.1
      ⟨by decide, by decide, by decide⟩,
   (validateFilePath_characterization exStat1 ["proj"] "notes.exe").2.2.1
      ⟨by decide, by decide, by decide⟩,
   (validateFilePath_characterization exStat1 ["proj"] "ghost.md").2.2.2
      ⟨by decide, by decide, by decide⟩⟩

/-- C9: `validateFilePath` evaluates its checks in the fixed order
containment, extension, accessibility, so with several conditions
violated the reported kind is that of the first violated check: a
failing prefix check yields `OutOfScope` whatever the extension or
filesystem state, and a passing prefix check with a bad extension yields
`DisallowedType` whatever the filesystem state. -/
theorem validateFilePath_check_order (statOf : String → Option Bool)
    (root : List String) (filePath : String) :
    (strStartsWith (resolvedStr root filePath) (pathStr root) = false →
      validateFilePath statOf root filePath = .error .OutOfScope) ∧
    (strStartsWith (resolvedStr root filePath) (pathStr root) = true →
      extname (resolvedStr root filePath) ∉ ALLOWED_EXTENSIONS →
      validateFilePath statOf root filePath = .error .DisallowedType) ∧
    (strStartsWith (resolvedStr root filePath) (pathStr root) = true →
      extname (resolvedStr root filePath) ∈ ALLOWED_EXTENSIONS →
      statOf (resolvedStr root filePath) ≠ some true →
      validateFilePath statOf root filePath = .error .NotAccessible) := by
  refine ⟨fun h1 => ?_, fun h1 h2 => ?_, fun h1 h2 h3 => ?_⟩
  · simp [validateFilePath, h1]
  · simp [validateFilePath, h1, h2]
  · cases h : statOf (resolvedStr root filePath) with
    | none => simp [validateFilePath, h1, h2, h]
    | some b =>
      cases b with
      | false => simp [validateFilePath, h1, h2, h]
      | true => exact absurd h h3

/-- Filesystem oracle for the C9 witness: no path is accessible. -/
def exStatNone : String → Option Bool := fun _ => none

/-- Witness for C9: `../evil.exe` both escapes the root and has a
disallowed extension but fails with `OutOfScope`; `ghost.exe` is both
missing and of a disallowed extension but fails with `DisallowedType`. -/
theorem validateFilePath_check_order_witness :
    validateFilePath exStatNone ["proj"] "../evil.exe" = .error .OutOfScope ∧
    validateFilePath exStatNone ["proj"] "ghost.exe" = .error .DisallowedType :=
  ⟨(validateFilePath_check_order exStatNone ["proj"] "../evil.exe").1 (by decide),
   (validateFilePath_check_order exStatNone ["proj"] "ghost.exe").2.1
      (by decide) (by decide)⟩

/-! ## Directory trees

A directory listing is modelled as a mutual inductive of entries and
entry lists; an `Entry.file` carries its name and full text content
(the model covers readable files — unreadable files and directories are
silently skipped by every walker in the source, contributing nothing,
exactly as an absent entry would). -/

mutual
inductive Entry where
  | file (name : String) (content : String) : Entry
  | dir (name : String) (entries : EntryList) : Entry
inductive EntryList where
  | nil : EntryList
  | cons (e : Entry) (rest : EntryList) : EntryList
end

/-- Building an `EntryList` from a Lean list of entries. -/
def entriesOf : List Entry → EntryList
  | [] => .nil
  | e :: r => .cons e (entriesOf r)

/-- The hard-coded directory exclusion test shared by `performSearch`,
`countSearchableFiles` and the usage-analysis `scanDirectory`: entries
whose name starts with a dot, `node_modules`, and `dist`. -/
def skipName (name : String) : Bool :=
  strStartsWith name "." || name = "node_modules" || name = "dist"

/-- Relative path of a child called `name` under the relative path
`pre`, mirroring `relative(ANGULAR_PROJECT_PATH, join(dir, name))`. -/
def joinRel (pre name : String) : String :=
  if pre = "" then name else pre ++ "/" ++ name

/-! ## Pattern Search Engine (`performSearch`, `countSearchableFiles`) -/

/-- One line-level hit, the `SearchResult` record of the source. -/
structure SearchResult where
  file : String
  line : Nat
  context : String
  excerpt : String
deriving DecidableEq, Repr

/-- Case-insensitive substring test applied per line:
`line.toLowerCase().includes(query.toLowerCase())`. -/
def lineMatches (query line : String) : Bool :=
  strContains (strLower line) (strLower query)

/-- The excerpt block of a hit:
`lines.slice(Math.max(0, index - 2), index + 3)` joined with newlines. -/
def excerptAt (lines : List String) (i : Nat) : String :=
  String.intercalate "\n" ((lines.drop (i - 2)).take (i + 3 - (i - 2)))

/-- Hits contributed by one file: the body of the `lines.forEach` in
`performSearch`, in ascending line order. -/
def searchLines (query relPath content : String) : List SearchResult :=
  let lines := splitLines content
  lines.enum.filterMap (fun p =>
    if lineMatches query p.2 then
      some { file := relPath, line := p.1 + 1, context := jsTrim p.2,
             excerpt := excerptAt lines p.1 }
    else none)

mutual
/-- Hits contributed by a single directory entry during the recursive
`searchFiles` walk: skipped directories contribute nothing, files are
scanned when their extension is in `allowedTypes`. -/
def searchEntry (query : String) (allowedTypes : List String) (pre : String) :
    Entry → List SearchResult
  | .file name content =>
    if allowedTypes.contains (extname name) then
      searchLines query (joinRel pre name) content
    else []
  | .dir name es =>
    if skipName name then [] else searchEntryList query allowedTypes (joinRel pre name) es
/-- Hits of a directory listing, in directory-entry order. -/
def searchEntryList (query : String) (allowedTypes : List String) (pre : String) :
    EntryList → List SearchResult
  | .nil => []
  | .cons e rest =>
    searchEntry query allowedTypes pre e ++ searchEntryList query allowedTypes pre rest
end

/-- Model of `performSearch`: the full depth-first accumulation followed
by `results.slice(0, 50)`. -/
def performSearch (root : EntryList) (query : String)
    (allowedTypes : List String) : List SearchResult :=
  (searchEntryList query allowedTypes "" root).take 50

mutual
/-- Contribution of one entry to `countSearchableFiles`. -/
def countEntry (allowedTypes : List String) : Entry → Nat
  | .file name _ => if allowedTypes.contains (extname name) then 1 else 0
  | .dir name es => if skipName name then 0 else countEntryList allowedTypes es
/-- Count over a directory listing. -/
def countEntryList (allowedTypes : List String) : EntryList → Nat
  | .nil => 0
  | .cons e rest => countEntry allowedTypes e + countEntryList allowedTypes rest
end

/-- Model of `countSearchableFiles`. -/
def countSearchableFiles (root : EntryList) (allowedTypes : List String) : Nat :=
  countEntryList allowedTypes root

mutual
/-- Relative paths of the searchable files below one entry, in the same
traversal order and under the same filters as the search and the count. -/
def filesEntry (allowedTypes : List String) (pre : String) : Entry → List String
  | .file name _ =>
    if allowedTypes.contains (extname name) then [joinRel pre name] else []
  | .dir name es =>
    if skipName name then [] else filesEntryList allowedTypes (joinRel pre name) es
/-- Searchable-file paths of a directory listing. -/
def filesEntryList (allowedTypes : List String) (pre : String) : EntryList → List String
  | .nil => []
  | .cons e rest => filesEntry allowedTypes pre e ++ filesEntryList allowedTypes pre rest
end

mutual
/-- Count and path list of one entry agree: the count is the length of
the searchable-file list. -/
theorem countEntry_eq_length (ts : List String) (pre : String) :
    ∀ e : Entry, countEntry ts e = (filesEntry ts pre e).length
  | .file n c => by
    simp only [countEntry, filesEntry]
    by_cases h : extname n ∈ ts <;> simp [h]
  | .dir n es => by
    simp only [countEntry, filesEntry]
    by_cases h : skipName n = true <;>
      simp [h, countEntryList_eq_length ts (joinRel pre n) es]
/-- List version of `countEntry_eq_length`. -/
theorem countEntryList_eq_length (ts : List String) (pre : String) :
    ∀ es : EntryList, countEntryList ts es = (filesEntryList ts pre es).length
  | .nil => by simp [countEntryList, filesEntryList]
  | .cons e rest => by
    simp [countEntryList, filesEntryList, countEntry_eq_length ts pre e,
      countEntryList_eq_length ts pre rest]
end

/-- Every hit produced by `searchLines` carries the path of the file
it was produced from. -/
theorem searchLines_file (q p c : String) (r : SearchResult)
    (h : r ∈ searchLines q p c) : r.file = p := by
  simp only [searchLines, List.mem_filterMap] at h
  obtain ⟨a, _, ha⟩ := h
  by_cases hm : lineMatches q a.2 = true
  · simp only [hm, if_true] at ha
    cases ha
    rfl
  · simp [hm] at ha

mutual
/-- The file of every hit below an entry is a searchable file of that
entry. -/
theorem searchEntry_file_mem (q : String) (ts : List String) (pre : String) :
    ∀ (e : Entry) (r : SearchResult), r ∈ searchEntry q ts pre e →
      r.file ∈ filesEntry ts pre e
  | .file n c, r => by
    simp only [searchEntry, filesEntry]
    by_cases h : extname n ∈ ts
    · simp [h]
      intro hr
      exact searchLines_file q (joinRel pre n) c r hr
    · simp [h]
  | .dir n es, r => by
    simp only [searchEntry, filesEntry]
    by_cases h : skipName n = true
    · simp [h]
    · simp only [h, if_false, Bool.false_eq_true]
      exact searchEntryList_file_mem q ts (joinRel pre n) es r
/-- List version of `searchEntry_file_mem`. -/
theorem searchEntryList_file_mem (q : String) (ts : List String) (pre : String) :
    ∀ (es : EntryList) (r : SearchResult), r ∈ searchEntryList q ts pre es →
      r.file ∈ filesEntryList ts pre es
  | .nil, r => by simp [searchEntryList, filesEntryList]
  | .cons e rest, r => by
    simp only [searchEntryList, filesEntryList, List.mem_append]
    rintro (h | h)
    · exact Or.inl (searchEntry_file_mem q ts pre e r h)
    · exact Or.inr (searchEntryList_file_mem q ts pre rest r h)
end

/-! ## Claim C2: the 50-hit cap -/

/-- C2: `performSearch` never returns more than 50 hits; it is exactly
the 50-element prefix of the full depth-first hit sequence, and when
more than 50 matching lines exist the returned array has exactly 50
elements (the first 50 hits in traversal order). -/
theorem performSearch_cap (root : EntryList) (q : String) (ts : List String) :
    (performSearch root q ts).length ≤ 50 ∧
    performSearch root q ts = (searchEntryList q ts "" root).take 50 ∧
    (50 < (searchEntryList q ts "" root).length →
      (performSearch root q ts).length = 50) := by
  refine ⟨?_, rfl, fun h => ?_⟩
  · rw [show performSearch root q ts = (searchEntryList q ts "" root).take 50 from rfl]
    exact List.length_take_le _ _
  · simp only [performSearch, List.length_take]
    omega

/-- Corpus with 60 matching lines for the C2 witness. -/
def exBigTree : EntryList :=
  entriesOf [.file "big.ts" (String.intercalate "\n" (List.replicate 60 "x"))]

set_option maxRecDepth 8000 in
/-- Witness for C2: on a corpus with 60 matching lines the full hit
sequence exceeds 50 and the returned array has exactly 50 hits. -/
theorem performSearch_cap_witness :
    50 < (searchEntryList "x" [".ts"] "" exBigTree).length ∧
    (performSearch exBigTree "x" [".ts"]).length = 50 :=
  ⟨by decide, (performSearch_cap exBigTree "x" [".ts"]).2.2 (by decide)⟩

/-! ## Claim C7: hit files are a subset of counted searchable files -/

/-- C7: for every tree, query and extension list, the number of
distinct file paths among the search hits is at most
`countSearchableFiles`. -/
theorem countSearchableFiles_ge_distinct_hit_files (root : EntryList)
    (q : String) (ts : List String) :
    ((performSearch root q ts).map SearchResult.file).toFinset.card ≤
      countSearchableFiles root ts := by
  have hsub : ((performSearch root q ts).map SearchResult.file) ⊆
      filesEntryList ts "" root := by
    intro x hx
    simp only [List.mem_map] at hx
    obtain ⟨r, hr, rfl⟩ := hx
    exact searchEntryList_file_mem q ts "" root r (List.mem_of_mem_take hr)
  calc ((performSearch root q ts).map SearchResult.file).toFinset.card
      ≤ (filesEntryList ts "" root).toFinset.card := by
        refine Finset.card_le_card ?_
        intro x hx
        exact List.mem_toFinset.mpr (hsub (List.mem_toFinset.mp hx))
    _ ≤ (filesEntryList ts "" root).length := List.toFinset_card_le _
    _ = countEntryList ts root := (countEntryList_eq_length ts "" root).symm
    _ = countSearchableFiles root ts := rfl

/-! ## Claim C8: the `signal` search scenario -/

/-- Five-line file whose only matching line for query `signal` is the
third, written with leading whitespace to exercise the trimming. -/
def exSignalTree : EntryList :=
  entriesOf [.file "demo.ts"
    "line one\nline two\n  const x = signal(0);\nline four\nline five"]

/-- Two-line file matching on its first line, to exercise boundary
clamping of the excerpt. -/
def exClampTree : EntryList :=
  entriesOf [.file "edge.ts" "const x = signal(0);\nafter"]

/-- C8: searching `signal`, `Signal` and `SIGNAL` against a file whose
single matching line is `const x = signal(0);` each produce exactly one
hit whose context is the trimmed line and whose excerpt spans two lines
before and after the match, clamped at the file boundaries. -/
theorem performSearch_signal_scenario :
    performSearch exSignalTree "signal" [".ts"] =
      [{ file := "demo.ts", line := 3, context := "const x = signal(0);",
         excerpt :=
           "line one\nline two\n  const x = signal(0);\nline four\nline five" }] ∧
    performSearch exSignalTree "Signal" [".ts"] =
      [{ file := "demo.ts", line := 3, context := "const x = signal(0);",
         excerpt :=
           "line one\nline two\n  const x = signal(0);\nline four\nline five" }] ∧
    performSearch exSignalTree "SIGNAL" [".ts"] =
      [{ file := "demo.ts", line := 3, context := "const x = signal(0);",
         excerpt :=
           "line one\nline two\n  const x = signal(0);\nline four\nline five" }] ∧
    performSearch exClampTree "SIGNAL" [".ts"] =
      [{ file := "edge.ts", line := 1, context := "const x = signal(0);",
         excerpt := "const x = signal(0);\nafter" }] := by
  refine ⟨?_, ?_, ?_, ?_⟩ <;> decide

/-! ## Claim C10: the search tool passes `fileTypes` through unvalidated -/

/-- The `allowedTypes` computation of the `search_codebase` handler:
`fileTypes || ALLOWED_EXTENSIONS` with `fileTypes` an optional array
parameter (an absent parameter falls back to the default list; any
supplied array, however alien, is used as-is). -/
def searchToolAllowedTypes (fileTypes : Option (List String)) : List String :=
  match fileTypes with
  | some ts => ts
  | none => ALLOWED_EXTENSIONS

/-- Tree holding a file whose extension the path guard would reject. -/
def exExeTree : EntryList := entriesOf [.file "evil.exe" "malicious payload"]

/-- Stat oracle under which `/proj/evil.exe` exists and is a file. -/
def exExeStat : String → Option Bool := fun p =>
  if p = "/proj/evil.exe" then some true else none

/-- C10: with a caller-supplied `fileTypes` of `[".exe"]` the handler
passes the list straight to `performSearch`, which reads `.exe` files
and returns their lines as hits, even though `.exe` is outside
`ALLOWED_EXTENSIONS` and the path guard rejects the same file with
`DisallowedType`. -/
theorem searchTool_unvalidated_fileTypes :
    ALLOWED_EXTENSIONS.contains ".exe" = false ∧
    performSearch exExeTree "payload" (searchToolAllowedTypes (some [".exe"])) =
      [{ file := "evil.exe", line := 1, context := "malicious payload",
         excerpt := "malicious payload" }] ∧
    validateFilePath exExeStat ["proj"] "evil.exe" = .error .DisallowedType := by
  refine ⟨by decide, by decide, rfl⟩

/-! ## Architecture helpers (`analysis-helper.ts`)

`findComponentFiles` and `findServiceFiles` are further directory
walkers with their own (differing) exclusion rules. -/

/-- Literal-prefix matcher shared by the regex translations: consume
`pat` from the front of `l` or fail. -/
def dropLit (pat : List Char) (l : List Char) : Option (List Char) :=
  if pat.isPrefixOf l then some (l.drop pat.length) else none

/-- Model of the JavaScript regex class `.` (anything but a line
terminator), ASCII plus the two Unicode line separators. -/
def jsDotChar (c : Char) : Bool :=
  c ≠ '\n' && c ≠ '\r' && c ≠ ' ' && c ≠ ' '

/-- Byte size of a file content, the `stats.size` of a UTF-8 file. -/
def byteSize (s : String) : Nat := (s.data.map Char.utf8Size).sum

/-- Model of `Math.round(stats.size / 1024 * 100) / 100`. -/
def sizeKBOf (size : Nat) : ℚ :=
  (((size * 25 + 128) / 256 : ℕ) : ℚ) / 100

/-- Model of `getComponentType`. -/
def getComponentType (path : String) : String :=
  if strContains path "shared/components/ui" then "UI Component"
  else if strContains path "layout/" then "Layout Component"
  else if strContains path "features/" then "Feature Component"
  else if strContains path "app.component" then "Root Component"
  else "Component"

/-- Model of `analyzeComponentFeatures`: feature tags pushed in source
order for each substring the content contains. -/
def analyzeComponentFeatures (content : String) : List String :=
  (if strContains content "standalone: true" then ["Standalone"] else []) ++
  (if strContains content "signal(" then ["Signals"] else []) ++
  (if strContains content "computed(" then ["Computed"] else []) ++
  (if strContains content "inject(" then ["inject()"] else []) ++
  (if strContains content "@Input" then ["Inputs"] else []) ++
  (if strContains content "@Output" then ["Outputs"] else []) ++
  (if strContains content "OnInit" then ["Lifecycle"] else []) ++
  (if strContains content "aria-" then ["Accessibility"] else [])

/-- Model of `getServicePurpose`: a fixed three-entry lookup by file
name with a default (the content argument is unused by the source). -/
def getServicePurpose (name : String) (_content : String) : String :=
  if name = "layout.service.ts" then
    "Responsive layout and sidebar state management"
  else if name = "theme.service.ts" then
    "Dark/light theme switching with system detection"
  else if name = "local-storage.service.ts" then
    "IndexedDB data persistence with reactive updates"
  else "Angular service providing application functionality"

/-- Model of `getServiceCategory`. -/
def getServiceCategory (path : String) : String :=
  if strContains path "core/services" then "core"
  else if strContains path "shared/services" then "utility"
  else if strContains path "storage" then "data"
  else "utility"

/-- Model of `analyzeServicePatterns`. -/
def analyzeServicePatterns (content : String) : List String :=
  (if strContains content "Injectable" then ["Injectable"] else []) ++
  (if strContains content "signal(" then ["Signals"] else []) ++
  (if strContains content "BehaviorSubject" then ["Reactive"] else []) ++
  (if strContains content "inject(" then ["Modern DI"] else []) ++
  (if strContains content "computed(" then ["Computed"] else []) ++
  (if strContains content "providedIn: \x27root\x27" then ["Singleton"] else [])

/-- Greedy tail matcher for the regex `import.*from [\x27"].*[\x27"];` after
the literal `import`: the first star takes the longest feasible run of
dot-class characters, then `from `, a quote, the longest feasible second
star, a quote and a semicolon.  Returns the number of characters
matched after `import`. -/
def matchImportFromTail (l1 : List Char) : Option Nat :=
  (List.range ((l1.takeWhile jsDotChar).length + 1)).reverse.findSome? fun j =>
    match dropLit "from ".data (l1.drop j) with
    | none => none
    | some l3 =>
      match l3 with
      | q :: l4 =>
        if isQuote2 q then
          (List.range ((l4.takeWhile jsDotChar).length + 1)).reverse.findSome? fun k =>
            match l4.drop k with
            | q2 :: c2 :: _ => if isQuote2 q2 && c2 = ';' then some (j + k + 8) else none
            | _ => none
        else none
      | [] => none

/-- Length of the leftmost match of `import.*from [\x27"].*[\x27"];` starting
exactly at the head of `l`. -/
def matchImportFromAt (l : List Char) : Option Nat :=
  match dropLit "import".data l with
  | none => none
  | some l1 => (matchImportFromTail l1).map (fun t => 6 + t)

/-- A successful `matchImportFromAt` consumes at least one character. -/
theorem matchImportFromAt_pos (l : List Char) (len : Nat)
    (h : matchImportFromAt l = some len) : 0 < len := by
  unfold matchImportFromAt at h
  cases hd : dropLit "import".data l with
  | none => rw [hd] at h; exact absurd h (by simp)
  | some l1 =>
    rw [hd] at h
    have h2 : Option.map (fun t => 6 + t) (matchImportFromTail l1) = some len := h
    cases ht : matchImportFromTail l1 with
    | none => rw [ht] at h2; exact absurd h2 (by simp)
    | some t => rw [ht] at h2; simp at h2; omega

/-- Model of the global match of the import-from regex over the whole content: the list of
matched substrings, scanning left to right and resuming after each
match. -/
def importFromMatches (l : List Char) : List String :=
  match l with
  | [] => []
  | c :: rest =>
    match hm : matchImportFromAt (c :: rest) with
    | some len => ⟨(c :: rest).take len⟩ :: importFromMatches ((c :: rest).drop len)
    | none => importFromMatches rest
termination_by l.length
decreasing_by
  · have hp := matchImportFromAt_pos _ _ hm
    simp [List.length_drop]
    omega
  · simp

/-- Order-preserving first-occurrence deduplication, the model of
`[...new Set(xs)]`. -/
def dedupFirstAux (seen : List String) : List String → List String
  | [] => []
  | x :: rest =>
    if seen.contains x then dedupFirstAux seen rest
    else x :: dedupFirstAux (x :: seen) rest

/-- Model of `[...new Set(xs)]`. -/
def dedupFirst (l : List String) : List String := dedupFirstAux [] l

/-- Model of `analyzeServiceDependencies`. -/
def analyzeServiceDependencies (content : String) : List String :=
  let imports := importFromMatches content.data
  let deps := imports.foldl
    (fun acc imp =>
      let acc := if strContains imp "@angular/core" then acc ++ ["Angular Core"] else acc
      let acc := if strContains imp "rxjs" then acc ++ ["RxJS"] else acc
      if strContains imp "./" then acc ++ ["Local Service"] else acc)
    []
  dedupFirst deps

/-- The `ComponentInfo` record of the source. -/
structure ComponentInfo where
  name : String
  path : String
  type : String
  sizeKB : ℚ
  features : List String
deriving DecidableEq, Repr

/-- The `ServiceInfo` record of the source. -/
structure ServiceInfo where
  name : String
  path : String
  purpose : String
  category : String
  patterns : List String
  dependencies : List String
deriving DecidableEq, Repr

mutual
/-- Contribution of one entry to `findComponentFiles`: directories are
recursed into unless hidden or `node_modules` (note: `dist` is NOT
excluded here), and files named `*.component.ts` yield a record. -/
def findComponentFilesEntry (pre : String) : Entry → List ComponentInfo
  | .file n c =>
    if strEndsWith n ".component.ts" then
      [{ name := replaceFirst n ".component.ts" "",
         path := joinRel pre n,
         type := getComponentType (joinRel pre n),
         sizeKB := sizeKBOf (byteSize c),
         features := analyzeComponentFeatures c }]
    else []
  | .dir n es =>
    if strStartsWith n "." || n = "node_modules" then []
    else findComponentFilesList (joinRel pre n) es
/-- List version of `findComponentFilesEntry`. -/
def findComponentFilesList (pre : String) : EntryList → List ComponentInfo
  | .nil => []
  | .cons e rest => findComponentFilesEntry pre e ++ findComponentFilesList pre rest
end

/-- Model of `findComponentFiles`. -/
def findComponentFiles (root : EntryList) : List ComponentInfo :=
  findComponentFilesList "" root

mutual
/-- Contribution of one entry to `findServiceFiles`: every directory is
recursed into — the walk has NO exclusion list — and files named
`*.service.ts` yield a record. -/
def findServiceFilesEntry (pre : String) : Entry → List ServiceInfo
  | .file n c =>
    if strEndsWith n ".service.ts" then
      [{ name := replaceFirst n ".service.ts" "",
         path := joinRel pre n,
         purpose := getServicePurpose n c,
         category := getServiceCategory (joinRel pre n),
         patterns := analyzeServicePatterns c,
         dependencies := analyzeServiceDependencies c }]
    else []
  | .dir n es => findServiceFilesList (joinRel pre n) es
/-- List version of `findServiceFilesEntry`. -/
def findServiceFilesList (pre : String) : EntryList → List ServiceInfo
  | .nil => []
  | .cons e rest => findServiceFilesEntry pre e ++ findServiceFilesList pre rest
end

/-- Model of `findServiceFiles`. -/
def findServiceFiles (root : EntryList) : List ServiceInfo :=
  findServiceFilesList "" root

/-! ## Usage Graph Builder (`analyze_component_usage` tool)

The builder keeps a `Map<string, ComponentUsage>`; JavaScript maps are
insertion-ordered, so the model is an association list where `set` on an
existing key replaces in place and otherwise appends. -/

/-- The `UsageLocation` record of the source (the `type` field is the
source union of template and typescript). -/
structure UsageLocation where
  file : String
  type : String
  line : Nat
  context : String
  usage : String
deriving DecidableEq, Repr

/-- The `ComponentUsage` record of the source (the `category` field is
the source union of ui, layout, feature and external). -/
structure ComponentUsage where
  component : String
  selector : String
  usedIn : List UsageLocation
  totalUsages : Nat
  importPath : String
  category : String
deriving DecidableEq, Repr

/-- Insertion-ordered map model of the `componentUsages` map. -/
abbrev UsageMap := List (String × ComponentUsage)

/-- Model of `Map.prototype.has`. -/
def mapHas (m : UsageMap) (k : String) : Bool := m.any (fun kv => kv.1 = k)

/-- Model of `Map.prototype.get` (restricted to present keys). -/
def mapGet? (m : UsageMap) (k : String) : Option ComponentUsage :=
  (m.find? (fun kv => kv.1 = k)).map (fun kv => kv.2)

/-- Model of `Map.prototype.set`: replace in place when the key exists,
append otherwise. -/
def mapSet (m : UsageMap) (k : String) (v : ComponentUsage) : UsageMap :=
  if mapHas m k then m.map (fun kv => if kv.1 = k then (k, v) else kv)
  else m ++ [(k, v)]

/-- Model of `Array.from(map.values())` in insertion order. -/
def mapValues (m : UsageMap) : List ComponentUsage := m.map (fun kv => kv.2)

/-- The in-place mutation `usage.usedIn.push(loc); usage.totalUsages++`
applied to the entry at key `k`. -/
def pushUsage (m : UsageMap) (k : String) (loc : UsageLocation) : UsageMap :=
  m.map (fun kv =>
    if kv.1 = k then
      (kv.1, { kv.2 with usedIn := kv.2.usedIn ++ [loc],
                         totalUsages := kv.2.totalUsages + 1 })
    else kv)

/-! ### The regex translations of the builder -/

/-- Greedy `\s+` step: consume at least one whitespace character (the
following literal in every pattern here starts with a non-space
character, so maximal munch is exact). -/
def dropSpaces1 (l : List Char) : Option (List Char) :=
  let rest := l.dropWhile jsSpace
  if rest.length < l.length then some rest else none

/-- Greedy capture of `(\w+Component)`: the longest prefix of the word
run that is a nonempty `\w+` followed by the literal `Component`. -/
def componentCapture (l : List Char) : Option (List Char) :=
  let run := l.takeWhile isWordChar
  ((List.range (run.length + 1)).reverse.findSome? fun k =>
    if 10 ≤ k && "Component".data.isSuffixOf (run.take k) then some (run.take k)
    else none)

/-- Match of `export\s+class\s+(\w+Component)` anchored at the head of
`l`, returning the capture. -/
def matchExportClassAt (l : List Char) : Option (List Char) := do
  let l1 ← dropLit "export".data l
  let l2 ← dropSpaces1 l1
  let l3 ← dropLit "class".data l2
  let l4 ← dropSpaces1 l3
  componentCapture l4

/-- Leftmost-match scan: try the anchored matcher at every position,
earliest first, as `String.prototype.match` does for an unflagged
regex. -/
def firstMatchScan (f : List Char → Option (List Char)) : List Char → Option (List Char)
  | [] => f []
  | c :: rest =>
    match f (c :: rest) with
    | some r => some r
    | none => firstMatchScan f rest

/-- Model of `extractComponentName`: first match of
`export\s+class\s+(\w+Component)` (the unused `filePath` argument of the
source is omitted). -/
def extractComponentName (content : String) : Option String :=
  (firstMatchScan matchExportClassAt content.data).map (fun l => ⟨l⟩)

/-- Match of `selector:\s*[\x27"\x60]([^\x27"\x60]+)[\x27"\x60]` anchored at the
head of `l`, returning the capture. -/
def matchSelectorAt (l : List Char) : Option (List Char) := do
  let l1 ← dropLit "selector:".data l
  let l2 := l1.dropWhile jsSpace
  match l2 with
  | c :: rest =>
    if isQuote3 c then
      let cap := rest.takeWhile (fun x => isQuote3 x = false)
      if cap.isEmpty then none
      else
        match rest.drop cap.length with
        | c2 :: _ => if isQuote3 c2 then some cap else none
        | [] => none
    else none
  | [] => none

/-- Model of `extractSelector`: first match of the selector pattern,
with the `unknown-selector` default. -/
def extractSelector (content : String) : String :=
  match firstMatchScan matchSelectorAt content.data with
  | some cap => ⟨cap⟩
  | none => "unknown-selector"

/-- Match of `import\s+\x7b([^}]+)}\s+from\s+[\x27"]([^\x27"]+)[\x27"]` anchored
at the head of `l`, returning the first capture (the brace list). -/
def matchImportBraceAt (l : List Char) : Option (List Char) := do
  let l1 ← dropLit "import".data l
  let l2 ← dropSpaces1 l1
  match l2 with
  | c :: rest =>
    if c = lbraceChar then
      let cap := rest.takeWhile (fun x => x ≠ rbraceChar)
      if cap.isEmpty then none
      else
        match rest.drop cap.length with
        | c2 :: l3 =>
          if c2 = rbraceChar then do
            let l4 ← dropSpaces1 l3
            let l5 ← dropLit "from".data l4
            let l6 ← dropSpaces1 l5
            match l6 with
            | q :: rest2 =>
              if isQuote2 q then
                let cap2 := rest2.takeWhile (fun x => isQuote2 x = false)
                if cap2.isEmpty then none
                else
                  match rest2.drop cap2.length with
                  | q2 :: _ => if isQuote2 q2 then some cap else none
                  | [] => none
              else none
            | [] => none
          else none
        | [] => none
    else none
  | [] => none

/-- Model of the per-line brace-import match of `scanTypeScriptFile`:
the brace-import regex applied per line, with the first capture group
split on commas and each piece trimmed. -/
def matchImportBrace (line : String) : Option (List String) :=
  (firstMatchScan matchImportBraceAt line.data).map (fun cap =>
    (splitCharsOn ',' cap).map (fun c => jsTrim ⟨c⟩))

/-- Match of `imports:\s*\[([^\]]+)\]` anchored at the head of `l`,
returning the capture. -/
def matchImportsArrayAt (l : List Char) : Option (List Char) := do
  let l1 ← dropLit "imports:".data l
  let l2 := l1.dropWhile jsSpace
  match l2 with
  | c :: rest =>
    if c = '[' then
      let cap := rest.takeWhile (fun x => x ≠ ']')
      if cap.isEmpty then none
      else
        match rest.drop cap.length with
        | c2 :: _ => if c2 = ']' then some cap else none
        | [] => none
    else none
  | [] => none

/-- Model of the per-line imports-array match of `scanTypeScriptFile`,
split on commas and trimmed. -/
def matchImportsArray (line : String) : Option (List String) :=
  (firstMatchScan matchImportsArrayAt line.data).map (fun cap =>
    (splitCharsOn ',' cap).map (fun c => jsTrim ⟨c⟩))

/-- Scan helper for `selectorTagTest`. -/
def tagTestAux (pat : List Char) : List Char → Bool
  | [] => false
  | c :: rest =>
    (pat.isPrefixOf (c :: rest) &&
      match (c :: rest).drop pat.length with
      | c2 :: _ => jsSpace c2 || c2 = '>'
      | [] => false) ||
    tagTestAux pat rest

/-- Model of `new RegExp(`<selector[\s>]`).test(line)` for selectors
free of regex metacharacters (every selector the discovery phase
extracts is a plain tag name): the line contains `<`, the selector, and
then a whitespace character or `>`. -/
def selectorTagTest (sel line : String) : Bool :=
  tagTestAux ('<' :: sel.data) line.data

/-! ### The two phases -/

/-- Model of `getContextLines`. -/
def getContextLines (lines : List String) (targetIndex radius : Nat) : String :=
  let start := targetIndex - radius
  let stop := min lines.length (targetIndex + radius + 1)
  String.intercalate "\n"
    (((lines.drop start).take (stop - start)).enum.map (fun p =>
      let lineNum := start + p.1 + 1
      let marker := if start + p.1 = targetIndex then "→ " else "  "
      marker ++ toString lineNum ++ ": " ++ p.2))

/-- Model of `determineComponentCategory`. -/
def determineComponentCategory (filePath : String) : String :=
  if strContains filePath "shared/components/ui" then "ui"
  else if strContains filePath "layout/" then "layout"
  else if strContains filePath "features/" then "feature"
  else "external"

/-- Per-file body of the discovery phase (`discoverComponents`): a
`*.component.ts` file with an extractable name and a truthy selector
registers a fresh `ComponentUsage` with empty `usedIn` and zero
counter. -/
def discoverFile (pre name content : String) (m : UsageMap) : UsageMap :=
  if strEndsWith (joinRel pre name) ".component.ts" then
    match extractComponentName content with
    | some componentName =>
      let sel := extractSelector content
      if sel = "" then m
      else
        mapSet m componentName
          { component := componentName, selector := sel, usedIn := [],
            totalUsages := 0, importPath := joinRel pre name,
            category := determineComponentCategory (joinRel pre name) }
    | none => m
  else m

/-- First block of the per-line body of `scanTypeScriptFile`: the
brace-import match, pushing one usage per listed name that is a key of
the map. -/
def scanTsLineBrace (lines : List String) (filePath : String) (includeContext : Bool)
    (idx : Nat) (line : String) (m : UsageMap) : UsageMap :=
  match matchImportBrace line with
  | some imports =>
    imports.foldl
      (fun acc importName =>
        if mapHas acc importName then
          pushUsage acc importName
            { file := filePath, type := "typescript", line := idx + 1,
              context := if includeContext then getContextLines lines idx 2 else "",
              usage := "Import: " ++ jsTrim line }
        else acc) m
  | none => m

/-- Second block of the per-line body of `scanTypeScriptFile`: the
imports-array match. -/
def scanTsLineArray (lines : List String) (filePath : String) (includeContext : Bool)
    (idx : Nat) (line : String) (m : UsageMap) : UsageMap :=
  match matchImportsArray line with
  | some refs =>
    refs.foldl
      (fun acc ref =>
        if mapHas acc ref then
          pushUsage acc ref
            { file := filePath, type := "typescript", line := idx + 1,
              context := if includeContext then getContextLines lines idx 2 else "",
              usage := "Component Import: " ++ ref }
        else acc) m
  | none => m

/-- Per-line body of `scanTypeScriptFile`: the brace-import block and
then the imports-array block, in source order. -/
def scanTsLine (lines : List String) (filePath : String) (includeContext : Bool)
    (idx : Nat) (line : String) (m : UsageMap) : UsageMap :=
  scanTsLineArray lines filePath includeContext idx line
    (scanTsLineBrace lines filePath includeContext idx line m)

/-- Model of `scanTypeScriptFile`. -/
def scanTypeScriptFile (content filePath : String) (m : UsageMap)
    (includeContext : Bool) : UsageMap :=
  let lines := splitLines content
  lines.enum.foldl
    (fun acc p => scanTsLine lines filePath includeContext p.1 p.2 acc) m

/-- Per-line body of `scanTemplateFile`: the `forEach` over the map
entries, in insertion order, testing each selector against the line
(keys are never added or removed during the scan, so the key list of
the accumulating map is the snapshot the `forEach` iterates). -/
def scanTplLine (lines : List String) (filePath : String) (includeContext : Bool)
    (idx : Nat) (line : String) (m : UsageMap) : UsageMap :=
  (m.map (fun kv => kv.1)).foldl
    (fun acc k =>
      match mapGet? acc k with
      | some u =>
        if selectorTagTest u.selector line then
          pushUsage acc k
            { file := filePath, type := "template", line := idx + 1,
              context := if includeContext then getContextLines lines idx 1 else "",
              usage := "Template: <" ++ u.selector ++ ">" }
        else acc
      | none => acc) m

/-- Model of `scanTemplateFile`. -/
def scanTemplateFile (content filePath : String) (m : UsageMap)
    (includeContext : Bool) : UsageMap :=
  let lines := splitLines content
  lines.enum.foldl
    (fun acc p => scanTplLine lines filePath includeContext p.1 p.2 acc) m

/-- Per-file body of the usage-scan phase (`scanForUsages`): allowed
extensions only, dispatching `.ts` and `.html` files. -/
def scanUsageFile (pre name content : String) (includeContext : Bool)
    (m : UsageMap) : UsageMap :=
  let ext := extname name
  if ALLOWED_EXTENSIONS.contains ext then
    if ext = ".ts" then scanTypeScriptFile content (joinRel pre name) m includeContext
    else if ext = ".html" then scanTemplateFile content (joinRel pre name) m includeContext
    else m
  else m

mutual
/-- The `scanDirectory` walk of the discovery phase on one entry. -/
def discoverEntry (pre : String) (m : UsageMap) : Entry → UsageMap
  | .file n c => discoverFile pre n c m
  | .dir n es => if skipName n then m else discoverEntryList (joinRel pre n) m es
/-- The `scanDirectory` walk of the discovery phase on a listing. -/
def discoverEntryList (pre : String) (m : UsageMap) : EntryList → UsageMap
  | .nil => m
  | .cons e rest => discoverEntryList pre (discoverEntry pre m e) rest
end

mutual
/-- The `scanDirectory` walk of the usage-scan phase on one entry. -/
def scanUsagesEntry (pre : String) (includeContext : Bool) (m : UsageMap) :
    Entry → UsageMap
  | .file n c => scanUsageFile pre n c includeContext m
  | .dir n es =>
    if skipName n then m else scanUsagesEntryList (joinRel pre n) includeContext m es
/-- The `scanDirectory` walk of the usage-scan phase on a listing. -/
def scanUsagesEntryList (pre : String) (includeContext : Bool) (m : UsageMap) :
    EntryList → UsageMap
  | .nil => m
  | .cons e rest =>
    scanUsagesEntryList pre includeContext (scanUsagesEntry pre includeContext m e) rest
end

/-- Entries of the `src` child directory of the project root, the tree
both phases walk (the join of the project path and "src"); a missing `src`
directory makes `readdir` fail and the walk contribute nothing. -/
def srcEntries : EntryList → Option EntryList
  | .nil => none
  | .cons (.dir n es) rest => if n = "src" then some es else srcEntries rest
  | .cons (.file _ _) rest => srcEntries rest

/-- Model of `discoverComponents` over the project tree. -/
def discoverComponents (tree : EntryList) (m : UsageMap) : UsageMap :=
  match srcEntries tree with
  | some es => discoverEntryList "src" m es
  | none => m

/-- Model of `scanForUsages` over the project tree. -/
def scanForUsages (tree : EntryList) (m : UsageMap) (includeContext : Bool) : UsageMap :=
  match srcEntries tree with
  | some es => scanUsagesEntryList "src" includeContext m es
  | none => m

/-- The two strictly ordered phases of `analyzeComponentUsage`. -/
def buildUsageMap (tree : EntryList) (includeContext : Bool) : UsageMap :=
  scanForUsages tree (discoverComponents tree []) includeContext

/-- The case-insensitive post-hoc filter predicate of
`analyzeComponentUsage`. -/
def usageMatchesFilter (targetComponent : String) (u : ComponentUsage) : Bool :=
  strContains (strLower u.component) (strLower targetComponent) ||
  strContains (strLower u.selector) (strLower targetComponent)

/-- Model of `analyzeComponentUsage`: build the full map, then either
filter (when a target-component string is supplied) or sort descending
by `totalUsages` (`results.sort((a, b) => b.totalUsages - a.totalUsages)`,
a stable sort). -/
def analyzeComponentUsage (tree : EntryList) (targetComponent : String)
    (includeContext : Bool) : List ComponentUsage :=
  let results := mapValues (buildUsageMap tree includeContext)
  if targetComponent ≠ "" then
    results.filter (usageMatchesFilter targetComponent)
  else
    results.mergeSort (fun a b => b.totalUsages ≤ a.totalUsages)

/-! ## Claim C3: the counter equals the usage-list length -/

/-- The invariant of the usage map: the counter of every entry equals
the length of its usage list. -/
def UsageInv (m : UsageMap) : Prop :=
  ∀ kv ∈ m, (kv : String × ComponentUsage).2.totalUsages = kv.2.usedIn.length

/-- The empty map satisfies the invariant. -/
theorem usageInv_nil : UsageInv [] := by
  intro kv h
  cases h

/-- The operation `pushUsage` appends one location and adds one to the counter, so it
preserves the invariant. -/
theorem pushUsage_inv (m : UsageMap) (k : String) (loc : UsageLocation)
    (h : UsageInv m) : UsageInv (pushUsage m k loc) := by
  intro kv hkv
  simp only [pushUsage, List.mem_map] at hkv
  obtain ⟨kv0, hkv0, heq⟩ := hkv
  subst heq
  by_cases hk : kv0.1 = k
  · simp [hk, h kv0 hkv0]
  · simp [hk]
    exact h kv0 hkv0

/-- The operation `mapSet` preserves the invariant when the inserted value satisfies
it. -/
theorem mapSet_inv (m : UsageMap) (k : String) (v : ComponentUsage)
    (h : UsageInv m) (hv : v.totalUsages = v.usedIn.length) :
    UsageInv (mapSet m k v) := by
  intro kv hkv
  unfold mapSet at hkv
  by_cases hhas : mapHas m k = true
  · simp only [hhas, if_true] at hkv
    simp only [List.mem_map] at hkv
    obtain ⟨kv0, hkv0, heq⟩ := hkv
    subst heq
    by_cases hk : kv0.1 = k
    · simpa [hk] using hv
    · simp [hk]
      exact h kv0 hkv0
  · simp only [hhas, if_false] at hkv
    rcases List.mem_append.mp hkv with hin | hin
    · exact h kv hin
    · simp at hin
      subst hin
      exact hv

/-- A fold whose step preserves a predicate preserves it. -/
theorem foldl_preserves {α β : Type} (P : β → Prop) (f : β → α → β)
    (hf : ∀ b a, P b → P (f b a)) :
    ∀ (l : List α) (b : β), P b → P (l.foldl f b)
  | [], _, hb => hb
  | a :: l, b, hb => foldl_preserves P f hf l (f b a) (hf b a hb)

/-- The discovery step `discoverFile` registers only fresh entries with a zero counter and
an empty list, preserving the invariant. -/
theorem discoverFile_inv (pre n c : String) (m : UsageMap) (h : UsageInv m) :
    UsageInv (discoverFile pre n c m) := by
  unfold discoverFile
  by_cases h1 : strEndsWith (joinRel pre n) ".component.ts" = true
  · simp only [h1, if_true]
    cases hx : extractComponentName c with
    | none => exact h
    | some cn =>
      by_cases h2 : extractSelector c = ""
      · simp [h2]
        exact h
      · simp [h2]
        exact mapSet_inv _ _ _ h rfl
  · simp [h1]
    exact h

/-- The brace-import block preserves the invariant. -/
theorem scanTsLineBrace_inv (lines : List String) (filePath : String) (ic : Bool)
    (idx : Nat) (line : String) (m : UsageMap) (h : UsageInv m) :
    UsageInv (scanTsLineBrace lines filePath ic idx line m) := by
  unfold scanTsLineBrace
  split
  · refine foldl_preserves UsageInv _ (fun b a hb => ?_) _ m h
    by_cases hk : mapHas b a = true
    · simp only [hk, if_true]
      exact pushUsage_inv _ _ _ hb
    · simp only [hk, if_false]
      exact hb
  · exact h

/-- The imports-array block preserves the invariant. -/
theorem scanTsLineArray_inv (lines : List String) (filePath : String) (ic : Bool)
    (idx : Nat) (line : String) (m : UsageMap) (h : UsageInv m) :
    UsageInv (scanTsLineArray lines filePath ic idx line m) := by
  unfold scanTsLineArray
  split
  · refine foldl_preserves UsageInv _ (fun b a hb => ?_) _ m h
    by_cases hk : mapHas b a = true
    · simp only [hk, if_true]
      exact pushUsage_inv _ _ _ hb
    · simp only [hk, if_false]
      exact hb
  · exact h

/-- The TypeScript line scan preserves the invariant. -/
theorem scanTsLine_inv (lines : List String) (filePath : String) (ic : Bool)
    (idx : Nat) (line : String) (m : UsageMap) (h : UsageInv m) :
    UsageInv (scanTsLine lines filePath ic idx line m) :=
  scanTsLineArray_inv _ _ _ _ _ _ (scanTsLineBrace_inv _ _ _ _ _ _ h)

/-- The template line scan preserves the invariant. -/
theorem scanTplLine_inv (lines : List String) (filePath : String) (ic : Bool)
    (idx : Nat) (line : String) (m : UsageMap) (h : UsageInv m) :
    UsageInv (scanTplLine lines filePath ic idx line m) := by
  unfold scanTplLine
  refine foldl_preserves UsageInv _ (fun b a hb => ?_) _ m h
  cases mapGet? b a with
  | none => exact hb
  | some u =>
    by_cases hs : selectorTagTest u.selector line = true
    · simp only [hs, if_true]
      exact pushUsage_inv _ _ _ hb
    · simp only [hs, if_false]
      exact hb

/-- The scan `scanTypeScriptFile` preserves the invariant. -/
theorem scanTypeScriptFile_inv (content filePath : String) (m : UsageMap)
    (ic : Bool) (h : UsageInv m) :
    UsageInv (scanTypeScriptFile content filePath m ic) :=
  foldl_preserves UsageInv _
    (fun b p hb => scanTsLine_inv _ _ _ _ _ b hb) _ m h

/-- The scan `scanTemplateFile` preserves the invariant. -/
theorem scanTemplateFile_inv (content filePath : String) (m : UsageMap)
    (ic : Bool) (h : UsageInv m) :
    UsageInv (scanTemplateFile content filePath m ic) :=
  foldl_preserves UsageInv _
    (fun b p hb => scanTplLine_inv _ _ _ _ _ b hb) _ m h

/-- The dispatch `scanUsageFile` preserves the invariant. -/
theorem scanUsageFile_inv (pre n c : String) (ic : Bool) (m : UsageMap)
    (h : UsageInv m) : UsageInv (scanUsageFile pre n c ic m) := by
  unfold scanUsageFile
  by_cases h1 : extname n ∈ ALLOWED_EXTENSIONS
  · by_cases h2 : extname n = ".ts"
    · simp [h1, h2]
      exact scanTypeScriptFile_inv _ _ _ _ h
    · by_cases h3 : extname n = ".html"
      · simp [h1, h2, h3]
        exact scanTemplateFile_inv _ _ _ _ h
      · simp [h1, h2, h3]
        exact h
  · simp [h1]
    exact h

mutual
/-- The discovery walk preserves the invariant on one entry. -/
theorem discoverEntry_inv (pre : String) (m : UsageMap) (h : UsageInv m) :
    ∀ e : Entry, UsageInv (discoverEntry pre m e)
  | .file n c => by
    unfold discoverEntry
    exact discoverFile_inv pre n c m h
  | .dir n es => by
    unfold discoverEntry
    by_cases hs : skipName n = true
    · simp only [hs, if_true]
      exact h
    · simp only [hs, if_false]
      exact discoverEntryList_inv (joinRel pre n) m h es
/-- The discovery walk preserves the invariant on a listing. -/
theorem discoverEntryList_inv (pre : String) (m : UsageMap) (h : UsageInv m) :
    ∀ es : EntryList, UsageInv (discoverEntryList pre m es)
  | .nil => by
    unfold discoverEntryList
    exact h
  | .cons e rest => by
    unfold discoverEntryList
    exact discoverEntryList_inv pre _ (discoverEntry_inv pre m h e) rest
end

mutual
/-- The usage-scan walk preserves the invariant on one entry. -/
theorem scanUsagesEntry_inv (pre : String) (ic : Bool) (m : UsageMap)
    (h : UsageInv m) : ∀ e : Entry, UsageInv (scanUsagesEntry pre ic m e)
  | .file n c => by
    unfold scanUsagesEntry
    exact scanUsageFile_inv pre n c ic m h
  | .dir n es => by
    unfold scanUsagesEntry
    by_cases hs : skipName n = true
    · simp only [hs, if_true]
      exact h
    · simp only [hs, if_false]
      exact scanUsagesEntryList_inv (joinRel pre n) ic m h es
/-- The usage-scan walk preserves the invariant on a listing. -/
theorem scanUsagesEntryList_inv (pre : String) (ic : Bool) (m : UsageMap)
    (h : UsageInv m) : ∀ es : EntryList, UsageInv (scanUsagesEntryList pre ic m es)
  | .nil => by
    unfold scanUsagesEntryList
    exact h
  | .cons e rest => by
    unfold scanUsagesEntryList
    exact scanUsagesEntryList_inv pre ic _ (scanUsagesEntry_inv pre ic m h e) rest
end

/-- The full two-phase build satisfies the invariant. -/
theorem buildUsageMap_inv (tree : EntryList) (ic : Bool) :
    UsageInv (buildUsageMap tree ic) := by
  unfold buildUsageMap scanForUsages discoverComponents
  cases srcEntries tree with
  | none => exact usageInv_nil
  | some es =>
    exact scanUsagesEntryList_inv _ _ _ (discoverEntryList_inv _ _ usageInv_nil es) es

/-- C3: every component returned by `analyzeComponentUsage`, with or
without a target-component filter, has its `totalUsages` counter equal
to the length of its `usedIn` list. -/
theorem analyzeComponentUsage_counter_invariant (tree : EntryList)
    (target : String) (ic : Bool) (u : ComponentUsage)
    (hu : u ∈ analyzeComponentUsage tree target ic) :
    u.totalUsages = u.usedIn.length := by
  have hinv := buildUsageMap_inv tree ic
  have hmem : u ∈ mapValues (buildUsageMap tree ic) := by
    unfold analyzeComponentUsage at hu
    by_cases ht : target = ""
    · simp only [ht, ne_eq, not_true_eq_false, if_false] at hu
      exact List.mem_mergeSort.mp hu
    · simp only [ne_eq, ht, not_false_eq_true, if_true] at hu
      exact List.mem_of_mem_filter hu
  simp only [mapValues, List.mem_map] at hmem
  obtain ⟨kv, hkv, heq⟩ := hmem
  subst heq
  exact hinv kv hkv

/-- Scenario-A project tree: one declared component and one template
usage of its selector on line 2 of `page.html`. -/
def exTreeA : EntryList :=
  entriesOf [.dir "src" (entriesOf [
    .file "widget.component.ts"
      "export class WidgetComponent\nselector: \x27app-widget\x27",
    .file "page.html" "<div>\n  <app-widget></app-widget>\n</div>"])]

/-- The component record that the scenario-A tree produces: one
template usage on line 2 and a counter of 1. -/
def exWidgetUsage : ComponentUsage :=
  { component := "WidgetComponent", selector := "app-widget",
    usedIn := [{ file := "src/page.html", type := "template", line := 2,
                 context := "", usage := "Template: <app-widget>" }],
    totalUsages := 1, importPath := "src/widget.component.ts",
    category := "external" }

/-- The unfiltered analysis of the scenario-A tree evaluates to the
singleton widget record (the sort of a singleton is itself). -/
theorem exTreeA_unfiltered_eq :
    analyzeComponentUsage exTreeA "" false = [exWidgetUsage] := by
  have hv : mapValues (buildUsageMap exTreeA false) = [exWidgetUsage] := by decide
  unfold analyzeComponentUsage
  rw [if_neg (by simp), hv, List.mergeSort_singleton]

/-- Witness for C3: the scenario-A component is returned with counter 1
and one usage location. -/
theorem analyzeComponentUsage_counter_invariant_witness :
    exWidgetUsage ∈ analyzeComponentUsage exTreeA "" false ∧
    exWidgetUsage.totalUsages = exWidgetUsage.usedIn.length :=
  ⟨by rw [exTreeA_unfiltered_eq]; exact List.mem_singleton_self _,
   analyzeComponentUsage_counter_invariant exTreeA "" false exWidgetUsage
     (by rw [exTreeA_unfiltered_eq]; exact List.mem_singleton_self _)⟩

/-! ## Claim C4: result ordering -/

/-- Project tree with two components matched by the filter string
`component`: the first discovered has 0 usages, the second has 2. -/
def exTree4 : EntryList :=
  entriesOf [.dir "src" (entriesOf [
    .file "alpha.component.ts"
      "export class AlphaComponent\nselector: \x27app-alpha\x27",
    .file "beta.component.ts"
      "export class BetaComponent\nselector: \x27app-beta\x27",
    .file "page.html" "<app-beta>\n<app-beta>"])]

/-- C4 counterexample: when a target-component filter is supplied the
result is NOT sorted descending by `totalUsages` — on `exTree4` with
filter `component` the usage counts come back as `[0, 2]`, an
ascending order, because the filtered branch returns the map values in
discovery order without sorting. -/
theorem analyzeComponentUsage_filtered_unsorted :
    (analyzeComponentUsage exTree4 "component" false).map
        (fun u => u.totalUsages) = [0, 2] ∧
    ¬ List.Pairwise (fun a b : Nat => b ≤ a)
        ((analyzeComponentUsage exTree4 "component" false).map
          (fun u => u.totalUsages)) := by
  have h1 : (analyzeComponentUsage exTree4 "component" false).map
      (fun u => u.totalUsages) = [0, 2] := by decide
  refine ⟨h1, ?_⟩
  rw [h1]
  decide

/-- C4 (amended): the invocation without a filter returns the
components sorted descending by `totalUsages` (a stable sort); an
invocation with a nonempty filter returns the filtered map values in
discovery order, without re-sorting. -/
theorem analyzeComponentUsage_sorting (tree : EntryList) (ic : Bool) :
    List.Pairwise (fun a b => b.totalUsages ≤ a.totalUsages)
      (analyzeComponentUsage tree "" ic) ∧
    (∀ target : String, target ≠ "" →
      analyzeComponentUsage tree target ic =
        (mapValues (buildUsageMap tree ic)).filter (usageMatchesFilter target)) := by
  constructor
  · unfold analyzeComponentUsage
    rw [if_neg (by simp)]
    refine List.Pairwise.imp ?_
      (@List.sorted_mergeSort ComponentUsage
        (fun a b => decide (b.totalUsages ≤ a.totalUsages))
        (fun a b c hab hbc => by
          simp only [decide_eq_true_eq] at hab hbc ⊢
          omega)
        (fun a b => by
          simp only [Bool.or_eq_true, decide_eq_true_eq]
          omega)
        (mapValues (buildUsageMap tree ic)))
    intro a b hab
    simpa using hab
  · intro target ht
    unfold analyzeComponentUsage
    rw [if_pos ht]

/-- Witness for C4 (amended): the filtered branch at filter
`component` on `exTree4` equals the unsorted filtered map values. -/
theorem analyzeComponentUsage_sorting_witness :
    ("component" : String) ≠ "" ∧
    analyzeComponentUsage exTree4 "component" false =
      (mapValues (buildUsageMap exTree4 false)).filter
        (usageMatchesFilter "component") :=
  ⟨by decide,
   (analyzeComponentUsage_sorting exTree4 false).2 "component" (by decide)⟩

/-! ## Claim C6: the filter yields a matching subset -/

/-- C6: with a nonempty target-component filter the returned components
form a subset of the unfiltered result, and for each of them the name or selector
contains the filter string case-insensitively. -/
theorem analyzeComponentUsage_filter_subset (tree : EntryList) (ic : Bool)
    (target : String) (ht : target ≠ "") :
    (∀ u ∈ analyzeComponentUsage tree target ic,
        u ∈ analyzeComponentUsage tree "" ic) ∧
    (∀ u ∈ analyzeComponentUsage tree target ic,
        strContains (strLower u.component) (strLower target) = true ∨
        strContains (strLower u.selector) (strLower target) = true) := by
  have key : ∀ u ∈ analyzeComponentUsage tree target ic,
      u ∈ mapValues (buildUsageMap tree ic) ∧ usageMatchesFilter target u = true := by
    intro u hu
    unfold analyzeComponentUsage at hu
    rw [if_pos ht] at hu
    exact ⟨List.mem_of_mem_filter hu, List.of_mem_filter hu⟩
  constructor
  · intro u hu
    unfold analyzeComponentUsage
    rw [if_neg (by simp)]
    exact List.mem_mergeSort.mpr (key u hu).1
  · intro u hu
    have h2 := (key u hu).2
    unfold usageMatchesFilter at h2
    simpa using h2

/-- Witness for C6: on the scenario-A tree the filter `widget` keeps
the widget component, which is also in the unfiltered result. -/
theorem analyzeComponentUsage_filter_subset_witness :
    ("widget" : String) ≠ "" ∧
    exWidgetUsage ∈ analyzeComponentUsage exTreeA "widget" false ∧
    exWidgetUsage ∈ analyzeComponentUsage exTreeA "" false :=
  ⟨by decide, by decide,
   (analyzeComponentUsage_filter_subset exTreeA false "widget" (by decide)).1
     exWidgetUsage (by decide)⟩

/-! ## Claim C5: directory exclusions of the walkers -/

/-- Tree with a `dist` directory holding a component file. -/
def exTreeDist : EntryList :=
  entriesOf [.dir "dist" (entriesOf [.file "w.component.ts" "export class WComponent"])]

/-- Tree with a `node_modules` directory holding a service file. -/
def exTreeNm : EntryList :=
  entriesOf [.dir "node_modules"
    (entriesOf [.file "api.service.ts" "export class ApiService"])]

/-- C5 counterexample: the claim that every traversal skips dot,
`node_modules` and `dist` entries fails for the discovery walkers —
`findServiceFiles` returns the file inside `node_modules`, and
`findComponentFiles` returns the file inside `dist`. -/
theorem discovery_walks_do_not_exclude :
    (findServiceFiles exTreeNm).map (fun s => s.path) =
      ["node_modules/api.service.ts"] ∧
    (findComponentFiles exTreeDist).map (fun c => c.path) =
      ["dist/w.component.ts"] := by
  constructor <;> decide

/-- C5 (amended): the search, count and usage-analysis walks all skip
directory entries named with a leading dot, `node_modules` or `dist`
(such a directory contributes no hits, no counted files, no searchable
paths and no map updates); but `findComponentFiles` descends into
`dist` (it skips only dot entries and `node_modules`), and
`findServiceFiles` descends into every directory. -/
theorem walker_exclusions (q : String) (ts : List String) (pre n : String)
    (es : EntryList) (hskip : skipName n = true) :
    searchEntry q ts pre (.dir n es) = [] ∧
    countEntry ts (.dir n es) = 0 ∧
    filesEntry ts pre (.dir n es) = [] ∧
    (∀ m : UsageMap, discoverEntry pre m (.dir n es) = m) ∧
    (∀ (m : UsageMap) (ic : Bool), scanUsagesEntry pre ic m (.dir n es) = m) ∧
    (∀ (pre2 : String) (es2 : EntryList),
      findComponentFilesEntry pre2 (.dir "dist" es2) =
        findComponentFilesList (joinRel pre2 "dist") es2) ∧
    (∀ (pre2 n2 : String) (es2 : EntryList),
      findServiceFilesEntry pre2 (.dir n2 es2) =
        findServiceFilesList (joinRel pre2 n2) es2) := by
  refine ⟨?_, ?_, ?_, fun m => ?_, fun m ic => ?_, fun pre2 es2 => ?_,
    fun pre2 n2 es2 => ?_⟩
  · unfold searchEntry
    simp [hskip]
  · unfold countEntry
    simp [hskip]
  · unfold filesEntry
    simp [hskip]
  · unfold discoverEntry
    simp [hskip]
  · unfold scanUsagesEntry
    simp [hskip]
  · unfold findComponentFilesEntry
    have hc : (strStartsWith "dist" "." || decide (("dist" : String) = "node_modules")) = false := by
      decide
    rw [hc]
    simp
  · unfold findServiceFilesEntry
    rfl

/-- Witness for C5 (amended): applied at the `node_modules` directory
of the concrete tree. -/
theorem walker_exclusions_witness :
    skipName "node_modules" = true ∧
    searchEntry "api" ALLOWED_EXTENSIONS ""
      (.dir "node_modules"
        (entriesOf [.file "api.service.ts" "export class ApiService"])) = [] :=
  ⟨by decide,
   (walker_exclusions "api" ALLOWED_EXTENSIONS "" "node_modules"
      (entriesOf [.file "api.service.ts" "export class ApiService"])
      (by decide)).1⟩

end McpScan
